import Mathlib

/-!
Verification of the transmute boolean-query translator.

The Go sources are embedded shallowly: Go strings become `List Char`
(`GoStr`), Go slices become Lean lists, Go maps become association lists
looked up in source order (lookups relevant here are deterministic because
at most one entry can match), and the `ir.BooleanQuery` /  `ir.Keyword`
data model becomes an inductive tree.  Byte-level Go string loops are
modelled at rune level; all inputs appearing in the properties below are
ASCII, where the two coincide.  Helper functions mirror the parts of the
Go standard library the sources use (`strings.Split`, `strings.Replace`,
`strings.TrimSpace`, `strings.ToLower`, `sort.Strings`, `set.Strings`),
restricted to ASCII where the originals are Unicode-aware.
-/

/- ------------------------------------------------------------------ -/
/- Go string model                                                     -/
/- ------------------------------------------------------------------ -/

abbrev GoStr := List Char

/-- Shorthand turning a Lean string literal into the `GoStr` model. -/
def gs (s : String) : GoStr := s.toList

/-- Go `unicode.IsSpace`, restricted to the ASCII space characters
(space, tab, newline, carriage return, vertical tab, form feed). -/
def goIsSpace (c : Char) : Bool :=
  c = ' ' || c = '\t' || c = '\n' || c = '\x0d' || c = '\x0b' || c = '\x0c'

/-- Go `strings.ToLower` on a single character, ASCII fragment. -/
def goToLowerChar (c : Char) : Char :=
  if 'A' ≤ c && c ≤ 'Z' then Char.ofNat (c.toNat + 32) else c

/-- Go `strings.ToLower`, ASCII fragment. -/
def goToLower (s : GoStr) : GoStr := s.map goToLowerChar

/-- Go `strings.TrimSpace`, ASCII fragment. -/
def goTrimSpace (s : GoStr) : GoStr :=
  ((s.dropWhile goIsSpace).reverse.dropWhile goIsSpace).reverse

/-- Go `strings.Split` with a one-character separator.  Like the Go
function it returns at least one (possibly empty) part. -/
def goSplitChar (sep : Char) : GoStr → List GoStr
  | [] => [[]]
  | c :: rest =>
    if c = sep then [] :: goSplitChar sep rest
    else
      match goSplitChar sep rest with
      | [] => [[c]]
      | t :: ts => (c :: t) :: ts

/-- Go `strings.Replace(s, old, new, -1)` for a one-character `old` and
one-character `new`. -/
def goReplaceAllChar (old new : Char) (s : GoStr) : GoStr :=
  s.map fun c => if c = old then new else c

/-- Go `strings.Replace(s, old, "", -1)` for a one-character `old`. -/
def goRemoveAllChar (old : Char) (s : GoStr) : GoStr :=
  s.filter fun c => ¬ (c = old)

/-- Go `strings.Replace(s, pat, "", 1)`: remove the first occurrence of
`pat` from `s` (for the empty pattern Go inserts the empty replacement,
leaving `s` unchanged). -/
def goRemoveFirst : GoStr → GoStr → GoStr
  | s, [] => s
  | [], _ => []
  | c :: rest, pat =>
    if pat.isPrefixOf (c :: rest) then (c :: rest).drop pat.length
    else c :: goRemoveFirst rest pat

/-- Fuel-driven worker for `goRemoveAllSeq`; the fuel only exists to make
the recursion structural and is always supplied in excess. -/
def goRemoveAllSeqFuel : Nat → GoStr → GoStr → GoStr
  | 0, s, _ => s
  | _ + 1, [], _ => []
  | fuel + 1, c :: rest, pat =>
    if ¬ (pat = []) && pat.isPrefixOf (c :: rest) then
      goRemoveAllSeqFuel fuel ((c :: rest).drop pat.length) pat
    else c :: goRemoveAllSeqFuel fuel rest pat

/-- Go `strings.Replace(s, pat, "", -1)`: remove every occurrence of
`pat` from `s`. -/
def goRemoveAllSeq (s pat : GoStr) : GoStr :=
  goRemoveAllSeqFuel (s.length + 1) s pat

/-- Go `strings.Contains`. -/
def goContainsSeq : GoStr → GoStr → Bool
  | [], pat => pat.isEmpty
  | c :: rest, pat => pat.isPrefixOf (c :: rest) || goContainsSeq rest pat

/-- Go `strings.ContainsAny`. -/
def goContainsAny (s chars : GoStr) : Bool := s.any fun c => chars.contains c

/-- Go `strings.ContainsRune`. -/
def goContainsRune (s : GoStr) (c : Char) : Bool := s.contains c

/-- Go `strings.Join` with a separator string. -/
def goJoin (sep : GoStr) (xs : List GoStr) : GoStr := List.intercalate sep xs

/-- Go `fmt` rendering of a non-negative integer. -/
def natRepr (n : Nat) : GoStr := (Nat.repr n).toList

/-- Byte-order comparison of Go strings, ASCII fragment (used by
`sort.Strings`). -/
def goStrLt : GoStr → GoStr → Bool
  | [], [] => false
  | [], _ :: _ => true
  | _ :: _, [] => false
  | a :: as, b :: bs =>
    if a.toNat < b.toNat then true
    else if b.toNat < a.toNat then false
    else goStrLt as bs

/-- Insertion step of `sortStrings`. -/
def insertSorted (x : GoStr) : List GoStr → List GoStr
  | [] => [x]
  | y :: ys => if goStrLt y x then y :: insertSorted x ys else x :: y :: ys

/-- Go `sort.Strings`: sort ascending in byte order. -/
def sortStrings (xs : List GoStr) : List GoStr := xs.foldr insertSorted []

/-- `set.Strings` of github.com/xtgo/set applied to a sorted slice:
collapse adjacent duplicates. -/
def dedupAdjacent : List GoStr → List GoStr
  | [] => []
  | [x] => [x]
  | x :: y :: rest =>
    if x = y then dedupAdjacent (y :: rest) else x :: dedupAdjacent (y :: rest)

/- ------------------------------------------------------------------ -/
/- Data model (ir.Keyword, ir.BooleanQuery)                            -/
/- ------------------------------------------------------------------ -/

/-- `ir.Keyword`: a field-scoped leaf term.  The open `Options` map of
the Go struct is carried by no code path the properties below touch and
is omitted. -/
structure Keyword where
  queryString : GoStr
  fields : List GoStr
  exploded : Bool
  truncated : Bool
deriving DecidableEq

/-- `ir.BooleanQuery`: the Canonical Query Tree.  A node holds an
operator, nested child groups and directly attached keyword leaves. -/
inductive BooleanQuery where
  | mk (operator : GoStr) (children : List BooleanQuery) (keywords : List Keyword)

def BooleanQuery.operator : BooleanQuery → GoStr
  | .mk op _ _ => op

def BooleanQuery.children : BooleanQuery → List BooleanQuery
  | .mk _ cs _ => cs

def BooleanQuery.keywords : BooleanQuery → List Keyword
  | .mk _ _ ks => ks

/-- Go `queryGroup.Operator = token`. -/
def BooleanQuery.withOperator (q : BooleanQuery) (op : GoStr) : BooleanQuery :=
  .mk op q.children q.keywords

/-- Go `queryGroup.Children = append(queryGroup.Children, subGroup)`. -/
def BooleanQuery.addChild (q c : BooleanQuery) : BooleanQuery :=
  .mk q.operator (q.children ++ [c]) q.keywords

/-- Go `queryGroup.Keywords = append(queryGroup.Keywords, k)`. -/
def BooleanQuery.addKeyword (q : BooleanQuery) (k : Keyword) : BooleanQuery :=
  .mk q.operator q.children (q.keywords ++ [k])

/-- The zero value `ir.BooleanQuery{}`. -/
def emptyBooleanQuery : BooleanQuery := .mk [] [] []

mutual
/-- All keyword leaves of a tree, in depth-first order with a node's
direct keywords before those of its children (matching the order the
parser appends them). -/
def allKeywords : BooleanQuery → List Keyword
  | .mk _ cs ks => ks ++ allKeywordsList cs
def allKeywordsList : List BooleanQuery → List Keyword
  | [] => []
  | q :: qs => allKeywords q ++ allKeywordsList qs
end

/- ------------------------------------------------------------------ -/
/- Medline parser (src/unnamed/part_000)                               -/
/- ------------------------------------------------------------------ -/

/-- The `MedlineFieldMapping` table, in source order. -/
def medlineFieldMappingEntries : List (GoStr × List GoStr) :=
  [ (gs "mp", [gs "mesh_headings"])
  , (gs "af", [gs "title", gs "abstract", gs "mesh_headings"])
  , (gs "tw", [gs "title", gs "abstract"])
  , (gs "nm", [gs "abstract", gs "mesh_headings"])
  , (gs "ab", [gs "abstract"])
  , (gs "ti", [gs "title"])
  , (gs "ot", [gs "title"])
  , (gs "sh", [gs "mesh_headings"])
  , (gs "px", [gs "mesh_headings"])
  , (gs "rs", [gs "mesh_headings"])
  , (gs "fs", [gs "mesh_headings"])
  , (gs "rn", [gs "mesh_headings"])
  , (gs "kf", [gs "mesh_headings"])
  , (gs "sb", [gs "mesh_headings"])
  , (gs "mh", [gs "mesh_headings"])
  , (gs "pt", [gs "pubtype"])
  ]

/-- Go map read `MedlineFieldMapping[field]`; a missing key yields the
zero value (the empty slice). -/
def MedlineFieldMapping (f : GoStr) : List GoStr :=
  (((medlineFieldMappingEntries.find? fun e => e.1 == f).map fun e => e.2).getD [])

/-- `TransformFields`: split a raw field annotation on commas and
concatenate what the mapping gives for each part. -/
def TransformFields (flds : GoStr) : List GoStr :=
  ((goSplitChar ',' flds).map MedlineFieldMapping).flatten

/-- `IsOperator` (part_000): the recognized Medline operator tokens. -/
def IsOperator (s : GoStr) : Bool :=
  s = gs "or" || s = gs "and" || s = gs "not" || s = gs "adj" ||
  s = gs "adj2" || s = gs "adj3" || s = gs "adj4" || s = gs "adj5" ||
  s = gs "adj6" || s = gs "adj7" || s = gs "adj8"

/-- `ReversePreservingCombiningCharacters`.  On strings containing no
Unicode combining marks and no U+FFFD (every string it receives here is
ASCII) the original is exactly rune reversal, which is what we embed. -/
def ReversePreservingCombiningCharacters (s : GoStr) : GoStr := s.reverse

/-- `MedlineParser.TransformSingle`: build a keyword from one raw
Medline token.  Mirrors the three branches of the source: trailing `/`
(mesh-heading form with optional `exp` explosion marker), a
`term.fields.` form splitting into exactly three parts, and the bare
fallback; then the empty-fields default (`ab`) and the `$` → `*`
replacement.  `Truncated` is the literal `false` of the source. -/
def MedlineTransformSingle (query : GoStr) : Keyword :=
  let st :=
    if query.getLast? == some '/' then
      let expParts := goSplitChar ' ' query
      let (qs, exploded) :=
        if expParts.head? == some (gs "exp") then
          (goJoin (gs " ") (expParts.drop 1), true)
        else (query, false)
      (goRemoveAllChar '/' qs, MedlineFieldMapping (gs "sh"), exploded)
    else
      let parts := goSplitChar '.' query
      if parts.length = 3 then
        ((parts.get? 0).getD [], TransformFields ((parts.get? 1).getD []), false)
      else (query, [], false)
  let flds := if st.2.1 = [] then MedlineFieldMapping (gs "ab") else st.2.1
  { queryString := goReplaceAllChar '$' '*' st.1
  , fields := flds
  , exploded := st.2.2
  , truncated := false }

/-- Precedence table of `ConvertInfixToPrefix` (part_000): `or` lowest,
`and`/`not`/`adj`..`adj8` all one level above. -/
def medlinePrecedence (t : GoStr) : Option Nat :=
  if t = gs "or" then some 0
  else if t = gs "and" || t = gs "not" || t = gs "adj" || t = gs "adj2" ||
    t = gs "adj3" || t = gs "adj4" || t = gs "adj5" || t = gs "adj6" ||
    t = gs "adj7" || t = gs "adj8" then some 1
  else none

/-- The `(`-branch inner loop of the shunting yard: pop and emit until a
`)` is popped (emitting `(` for it), or the stack runs dry.  The stack
is modelled with its top at the head. -/
def drainUntilOpen : List GoStr → List GoStr → (List GoStr × List GoStr)
  | [], result => ([], result)
  | t :: rest, result =>
    if t = gs ")" then (rest, result ++ [gs "("])
    else drainUntilOpen rest (result ++ [t])

/-- The operator-branch inner loop: pop and emit while the stack top has
strictly greater precedence (a missing table entry counts as 0, the Go
map zero value, which is how `)` entries on the stack compare). -/
def popGreater (prec : GoStr → Option Nat) (tokPrec : Nat) :
    List GoStr → List GoStr → (List GoStr × List GoStr)
  | [], result => ([], result)
  | t :: rest, result =>
    if (prec t).getD 0 > tokPrec then popGreater prec tokPrec rest (result ++ [t])
    else (t :: rest, result)

/-- One token of the right-to-left shunting-yard scan, parameterized by
the dialect precedence table. -/
def shuntStep (prec : GoStr → Option Nat) (st : List GoStr × List GoStr)
    (token : GoStr) : List GoStr × List GoStr :=
  let (stack, result) := st
  if token = gs ")" then (token :: stack, result ++ [token])
  else if token = gs "(" then drainUntilOpen stack result
  else
    match prec token with
    | none => (stack, result ++ [token])
    | some p =>
      let (stack2, result2) := popGreater prec p stack result
      (token :: stack2, result2)

/-- `ConvertInfixToPrefix` (part_000): scan the infix token list right
to left with the modified shunting yard that keeps brackets, drain the
stack, and reverse the postfix-like output into prefix order. -/
def ConvertInfixToPrefixTokens (infixTokens : List GoStr) : List GoStr :=
  let (stack, result) := infixTokens.reverse.foldl (shuntStep medlinePrecedence) ([], [])
  (result ++ stack).reverse

/-- State of the character loop in `MedlineParser.ParseInfixKeywords`. -/
structure MedlineLexState where
  stack : List GoStr
  keyword : GoStr
  currentToken : GoStr
  previousToken : GoStr
  endTokens : GoStr
  depth : Int
deriving DecidableEq

def initMedlineLexState : MedlineLexState := ⟨[], [], [], [], [], 0⟩

/-- One character of the `ParseInfixKeywords` loop (part_000): spaces
flush an operator (together with the keyword text accumulated before it)
or extend the pending free text; `(` and `)` maintain the depth and the
token stack; any other character extends the current token and, at depth
0, the trailing `endTokens` buffer. -/
def medlineLexStep (st : MedlineLexState) (char : Char) : MedlineLexState :=
  if goIsSpace char then
    let t := goToLower st.currentToken
    if IsOperator t then
      { st with stack := st.stack ++ [goTrimSpace st.previousToken, goTrimSpace t]
              , previousToken := [], keyword := [], currentToken := [] }
    else
      { st with previousToken := st.previousToken ++ ' ' :: st.currentToken
              , currentToken := [] }
  else if char = '(' then
    { st with depth := st.depth + 1, stack := st.stack ++ [gs "("], currentToken := [] }
  else if char = ')' then
    let st1 : MedlineLexState := { st with depth := st.depth - 1 }
    let st2 :=
      if st1.keyword.length > 0 || st1.currentToken.length > 0 then
        { st1 with stack := st1.stack ++ [goTrimSpace (st1.keyword ++ ' ' :: st1.currentToken)]
                 , keyword := [], currentToken := [] }
      else st1
    { st2 with stack := st2.stack ++ [gs ")"] }
  else
    let st1 : MedlineLexState := { st with currentToken := st.currentToken ++ [char] }
    if st1.depth = 0 then { st1 with endTokens := st1.endTokens ++ [char] } else st1

/-- `MedlineParser.TransformPrefixGroupToQueryGroup`, with explicit fuel
standing in for the Go recursion (the Go function consumes the prefix
token list from the front and recurses on suffixes; fuel at least the
list length makes the two agree, and every use below supplies it).  An
operator token becomes the node operator, `(` recurses into a fresh
child, `)` returns to the caller, and any other non-empty token becomes
a keyword whose fields are overwritten with the line-level `flds`. -/
def TransformPrefixGroupToQueryGroup :
    Nat → List GoStr → BooleanQuery → List GoStr → (List GoStr × BooleanQuery)
  | _, [], qg, _ => ([], qg)
  | 0, pre, qg, _ => (pre, qg)
  | fuel + 1, token :: rest, qg, flds =>
    if IsOperator token then
      TransformPrefixGroupToQueryGroup fuel rest (qg.withOperator token) flds
    else if token = gs "(" then
      let (rest2, subGroup) :=
        TransformPrefixGroupToQueryGroup fuel rest emptyBooleanQuery flds
      TransformPrefixGroupToQueryGroup fuel (rest2.drop 1) (qg.addChild subGroup) flds
    else if token = gs ")" then
      (token :: rest, qg)
    else
      let qg :=
        if token.length > 0 then
          let k := MedlineTransformSingle token
          qg.addKeyword { k with fields := flds }
        else qg
      TransformPrefixGroupToQueryGroup fuel rest qg flds

/-- `MedlineParser.ParseInfixKeywords`: run the character loop over the
line (with the sentinel newline), flush the trailing depth-0 buffer,
convert to prefix, strip one enclosing bracket pair when present, and
assemble the tree.  (Where the Go code would panic — indexing an empty
prefix list — the embedding leaves the list unchanged; no input below
reaches that case.) -/
def MedlineParseInfixKeywords (line : GoStr) (flds : List GoStr) : BooleanQuery :=
  let fin := (line ++ ['\n']).foldl medlineLexStep initMedlineLexState
  let stack := if fin.endTokens.length > 0 then fin.stack ++ [fin.endTokens] else fin.stack
  let pre := ConvertInfixToPrefixTokens stack
  let pre :=
    if pre.head? == some (gs "(") && pre.getLast? == some (gs ")") then
      (pre.drop 1).dropLast
    else pre
  (TransformPrefixGroupToQueryGroup pre.length pre emptyBooleanQuery flds).2

/-- The reversed trailing field string of `MedlineParser.TransformNested`:
the loop walks from the last character down to index 1 collecting
characters until it meets `)`. -/
def medlineFieldStringRev (query : GoStr) : GoStr :=
  query.reverse.dropLast.takeWhile fun c => ¬ (c = ')')

/-- The field set `MedlineParser.TransformNested` derives from a line's
trailing field annotation: strip the dots from the collected trailing
string, split it on commas and concatenate what the mapping gives for
each part. -/
def medlineNestedLineFields (query : GoStr) : List GoStr :=
  let fieldsString := ReversePreservingCombiningCharacters (medlineFieldStringRev query)
  let fieldsString' := goRemoveAllChar '.' fieldsString
  ((goSplitChar ',' fieldsString').map MedlineFieldMapping).flatten

/-- `MedlineParser.TransformNested`: extract the trailing field
annotation (everything after the last `)`), remove it from the line,
resolve it through the field mapping, and parse the rest with those
fields applied to every keyword. -/
def MedlineTransformNested (query : GoStr) : BooleanQuery :=
  let fieldsString := ReversePreservingCombiningCharacters (medlineFieldStringRev query)
  let query' := goRemoveFirst query fieldsString
  MedlineParseInfixKeywords query' (medlineNestedLineFields query)

/- ------------------------------------------------------------------ -/
/- Medline backend (src/unnamed/part_003)                              -/
/- ------------------------------------------------------------------ -/

/-- Modelled from the spec: the canonical field identifier constants of
the external `fields` package (its source is not under src/; §4.3 and
the glossary name `title`, `abstract`, `mesh_headings`,
`publication_type` as canonical dialect-independent identifiers).  Each
constant is modelled as a distinct snake_case identifier string. -/
def fieldsTitle : GoStr := gs "title"

def fieldsAbstract : GoStr := gs "abstract"

def fieldsMeshHeadings : GoStr := gs "mesh_headings"

def fieldsFloatingMeshHeadings : GoStr := gs "floating_mesh_headings"

def fieldsMeSHTerms : GoStr := gs "mesh_terms"

def fieldsPublicationType : GoStr := gs "publication_type"

def fieldsPublicationDate : GoStr := gs "publication_date"

def fieldsAuthors : GoStr := gs "authors"

def fieldsJournal : GoStr := gs "journal"

def fieldsAllFields : GoStr := gs "all_fields"

def fieldsTitleAbstract : GoStr := gs "title_abstract"

def fieldsMajorFocusMeshHeading : GoStr := gs "major_focus_mesh_heading"

def fieldsPublicationStatus : GoStr := gs "publication_status"

/-- The reverse field-code table inside `compileMedline`, in source
order.  The Go code ranges over this map in unspecified order, but the
match condition is exact list equality and the table's values are
pairwise distinct, so at most one entry can match and the iteration
order is immaterial. -/
def medlineReverseMappingEntries : List (GoStr × List GoStr) :=
  [ (gs "ti,ab,sh", [fieldsMeshHeadings, fieldsAbstract, fieldsTitle])
  , (gs "ab,sh",    [fieldsMeshHeadings, fieldsAbstract])
  , (gs "ti,sh",    [fieldsMeshHeadings, fieldsTitle])
  , (gs "tw",       [fieldsAbstract, fieldsTitle])
  , (gs "ab",       [fieldsAbstract])
  , (gs "ti",       [fieldsTitle])
  , (gs "fs",       [fieldsFloatingMeshHeadings])
  , (gs "sh",       [fieldsMeshHeadings])
  , (gs "mh",       [fieldsMeSHTerms])
  , (gs "pt",       [fieldsPublicationType])
  , (gs "ed",       [fieldsPublicationDate])
  , (gs "au",       [fieldsAuthors])
  , (gs "jn",       [fieldsJournal])
  , (gs "mp",       [fieldsAllFields])
  , (gs "ti,ab",    [fieldsTitleAbstract])
  ]

/-- The reverse lookup of `compileMedline`: the first (hence only) entry
whose stored canonical field list is exactly the given list — the Go
loop first requires equal lengths and then element-by-element equality,
which together are plain list equality. -/
def medlineReverseLookup (flds : List GoStr) : Option GoStr :=
  (medlineReverseMappingEntries.find? fun e => e.2 == flds).map fun e => e.1

/-- The per-keyword rendering step of `compileMedline`: `exp ` marks an
exploded term, a single `mesh_headings` field renders as the trailing
`/` form, and otherwise the keyword's fields are sorted, deduplicated
and reverse-looked-up into a dialect field code (empty, after a logged
warning, when no entry matches exactly). -/
def medlineKeywordLine (level : Nat) (keyword : Keyword) : GoStr :=
  let qs :=
    if keyword.exploded then gs "exp " ++ keyword.queryString else keyword.queryString
  let qs :=
    if keyword.fields.length = 1 && keyword.fields.head? == some fieldsMeshHeadings then
      qs ++ gs "/"
    else
      let sorted := dedupAdjacent (sortStrings keyword.fields)
      let mf := (medlineReverseLookup sorted).getD []
      qs ++ gs "." ++ mf ++ gs "."
  natRepr level ++ gs ". " ++ qs ++ ['\n']

/-- The ascending-consecutive check of `compileMedline` starting from a
previous value: the Go loop tests `op[i]-1 != o` over machine integers,
i.e. `op[i] = o + 1`. -/
def isConsecutiveAscFrom : Nat → List Nat → Bool
  | _, [] => true
  | o, x :: rest => if x = o + 1 then isConsecutiveAscFrom x rest else false

/-- The `asc` flag of `compileMedline` for a whole operand list. -/
def isConsecutiveAsc : List Nat → Bool
  | [] => true
  | x :: rest => isConsecutiveAscFrom x rest

/-- The operand-combination statement of `compileMedline` (the
`if len(op) > 0` block): a strictly ascending consecutive operand run of
length greater than 2 renders as the compact `<n>. <operator>/<first>-<last>`
form, anything else as the operand numbers joined by the operator. -/
def medlineOpsLine (level : Nat) (operator : GoStr) (op : List Nat) : GoStr :=
  if op.length > 0 then
    if isConsecutiveAsc op && op.length > 2 then
      natRepr level ++ gs ". " ++ operator ++ gs "/" ++ natRepr (op.headD 0) ++
        gs "-" ++ natRepr (op.getLastD 0) ++ ['\n']
    else
      natRepr level ++ gs ". " ++
        goJoin (gs " " ++ operator ++ gs " ") (op.map natRepr) ++ ['\n']
  else []

/-- The keyword loop of `compileMedline`: emit one numbered line per
keyword, recording each line number as an operand and bumping the
statement counter. -/
def medlineKeywordsLoop : List Keyword → Nat → (Nat × GoStr × List Nat)
  | [], level => (level, [], [])
  | kw :: rest, level =>
    let line := medlineKeywordLine level kw
    let (level2, repr2, op2) := medlineKeywordsLoop rest (level + 1)
    (level2, line ++ repr2, level :: op2)

mutual
/-- `compileMedline` (part_003): depth-first reverse compilation into
numbered Medline statements.  A node with no keywords and no operator
just concatenates its children's outputs; otherwise the children are
compiled first (recording each child's last statement number as an
operand), the direct keywords are emitted, and the node closes with its
operand-combination statement. -/
def compileMedline : BooleanQuery → Nat → (Nat × GoStr)
  | .mk operator children keywords, level =>
    if keywords = [] && operator = [] then
      compileMedlineBareChildren children level
    else
      let (level1, repr1, op1) := compileMedlineChildren children level
      let (level2, repr2, op2) := medlineKeywordsLoop keywords level1
      (level2 + 1, repr1 ++ repr2 ++ medlineOpsLine level2 operator (op1 ++ op2))

/-- The child loop of the operator-less, keyword-less branch of
`compileMedline`: children compiled in sequence, output concatenated,
no operand numbers collected and no statement-number bump. -/
def compileMedlineBareChildren : List BooleanQuery → Nat → (Nat × GoStr)
  | [], level => (level, [])
  | c :: cs, level =>
    let (level1, repr1) := compileMedline c level
    let (level2, repr2) := compileMedlineBareChildren cs level1
    (level2, repr1 ++ repr2)

/-- The child loop of the main branch of `compileMedline`: each child is
compiled and its last assigned statement number (`l - 1`) is recorded as
an operand of the parent. -/
def compileMedlineChildren : List BooleanQuery → Nat → (Nat × GoStr × List Nat)
  | [], level => (level, [], [])
  | c :: cs, level =>
    let (l, repr1) := compileMedline c level
    let (level2, repr2, op2) := compileMedlineChildren cs l
    (level2, repr1 ++ repr2, (l - 1) :: op2)
end

/-- `MedlineBackend.Compile`: compile a tree starting at statement 1. -/
def MedlineCompile (q : BooleanQuery) : GoStr := (compileMedline q 1).2

/- ------------------------------------------------------------------ -/
/- Numeric grouping parser (src/unnamed/part_002)                      -/
/- ------------------------------------------------------------------ -/

/-- `QueryGroup`: intermediate line-reference grouping structure. -/
structure QueryGroup where
  id : Nat
  type : GoStr
  keywordNumbers : List Nat
  children : List QueryGroup

def emptyQueryGroup : QueryGroup := ⟨0, [], [], []⟩

/-- Go `unicode.IsNumber` on the ASCII digits. -/
def goIsNumber (c : Char) : Bool := '0' ≤ c && c ≤ '9'

/-- `strconv.Atoi` on the digit-only strings the grouping code feeds it
(the full Go function also accepts signs; every call site here passes a
run of accumulated digits). -/
def goAtoi (s : GoStr) : Option Nat :=
  if ¬ (s = []) && s.all goIsNumber then
    some (s.foldl (fun n c => n * 10 + (c.toNat - 48)) 0)
  else none

/-- Precedence table of `convertInfixToPrefix` (part_002):
`and`/`not` at 0, `or` at 1. -/
def groupingPrecedence (t : GoStr) : Option Nat :=
  if t = gs "and" then some 0
  else if t = gs "or" then some 1
  else if t = gs "not" then some 0
  else none

/-- `convertInfixToPrefix` (part_002): the same bracket-keeping
right-to-left shunting yard as part_000, with the grouping precedence
table. -/
def convertInfixToPrefixGroups (infixTokens : List GoStr) : List GoStr :=
  let (stack, result) := infixTokens.reverse.foldl (shuntStep groupingPrecedence) ([], [])
  (result ++ stack).reverse

/-- `transformPrefixGroupToQueryGroup` (part_002), with explicit fuel
standing in for the Go recursion on suffixes of the token list (fuel at
least the list length makes the two agree; every use below supplies
it).  A non-numeric operand token makes the Go code panic via
`log.Panicln`; the embedding skips it — no token stream considered here
contains one. -/
def transformPrefixGroupToQueryGroupNums :
    Nat → List GoStr → QueryGroup → (List GoStr × QueryGroup)
  | _, [], qg => ([], qg)
  | 0, pre, qg => (pre, qg)
  | fuel + 1, token :: rest, qg =>
    if token = gs "and" || token = gs "or" || token = gs "not" then
      transformPrefixGroupToQueryGroupNums fuel rest { qg with type := token }
    else if token = gs "(" then
      let (rest2, subGroup) :=
        transformPrefixGroupToQueryGroupNums fuel rest emptyQueryGroup
      transformPrefixGroupToQueryGroupNums fuel (rest2.drop 1)
        { qg with children := qg.children ++ [subGroup] }
    else if token = gs ")" then
      (token :: rest, qg)
    else
      let qg :=
        match goAtoi token with
        | some n => { qg with keywordNumbers := qg.keywordNumbers ++ [n] }
        | none => qg
      transformPrefixGroupToQueryGroupNums fuel rest qg

/-- State of the character loop in `parseInfixGrouping`. -/
structure InfixGroupLexState where
  stack : List GoStr
  inGroup : Bool
  keyword : GoStr
deriving DecidableEq

/-- One character of the `parseInfixGrouping` loop: before the start
marker everything is skipped; afterwards whitespace flushes the pending
token, parentheses are emitted as structural tokens, and any other
non-space character extends the pending token. -/
def infixGroupLexStep (startsAfter : Option Char) (st : InfixGroupLexState)
    (char : Char) : InfixGroupLexState :=
  if ¬ st.inGroup && some char == startsAfter then { st with inGroup := true }
  else if ¬ st.inGroup then st
  else if goIsSpace char && st.keyword.length > 0 then
    { st with stack := st.stack ++ [goTrimSpace st.keyword], keyword := [] }
  else if char = '(' then
    { st with stack := st.stack ++ [gs "("], keyword := [] }
  else if char = ')' then
    let st1 :=
      if st.keyword.length > 0 then
        { st with stack := st.stack ++ [goTrimSpace st.keyword], keyword := [] }
      else st
    { st1 with stack := st1.stack ++ [gs ")"] }
  else if ¬ goIsSpace char then { st with keyword := st.keyword ++ [char] }
  else st

/-- `parseInfixGrouping` (part_002): lower-case the line, tokenize it
after the start marker (`none` models the Go `rune(0)` argument, which
makes scanning start immediately), convert to prefix and build the
`QueryGroup`. -/
def parseInfixGrouping (group : GoStr) (startsAfter : Option Char) : QueryGroup :=
  let group := goToLower (group ++ ['\n'])
  let fin := group.foldl (infixGroupLexStep startsAfter)
    ⟨[], startsAfter.isNone, []⟩
  let pre := convertInfixToPrefixGroups fin.stack
  (transformPrefixGroupToQueryGroupNums pre.length pre emptyQueryGroup).2

/-- The inclusive range loop `for i := lhs; i <= rhs; i++` of
`parsePrefixGrouping` (empty when the lower bound exceeds the upper). -/
def rangeIncl (lo hi : Nat) : List Nat := List.range' lo (hi + 1 - lo)

/-- State of the character loop in `parsePrefixGrouping`. -/
structure PrefixGroupState where
  nums : List GoStr
  num : GoStr
  sep : GoStr
  operator : GoStr
  inGroup : Bool
  queryGroup : QueryGroup

/-- The number-flush block of `parsePrefixGrouping`, entered when a
non-digit follows a pending digit run: the run joins `nums`; two
pending numbers with a `-` separator set the group type to the
accumulated operator text and append the whole inclusive range; one
pending number with a `,` separator sets the type and appends just that
number. -/
def prefixGroupFlush (st : PrefixGroupState) : PrefixGroupState :=
  let st := { st with nums := st.nums ++ [st.num], num := [] }
  if st.nums.length = 2 then
    let st :=
      if st.sep = gs "-" then
        let lhs := (goAtoi ((st.nums.get? 0).getD [])).getD 0
        let rhs := (goAtoi ((st.nums.get? 1).getD [])).getD 0
        { st with
            queryGroup :=
              { st.queryGroup with
                  type := st.operator
                , keywordNumbers := st.queryGroup.keywordNumbers ++ rangeIncl lhs rhs } }
      else st
    { st with nums := [] }
  else if st.nums.length = 1 then
    if st.sep = gs "," then
      let lhs := (goAtoi ((st.nums.get? 0).getD [])).getD 0
      { st with
          nums := []
        , queryGroup :=
            { st.queryGroup with
                type := st.operator
              , keywordNumbers := st.queryGroup.keywordNumbers ++ [lhs] } }
    else st
  else st

/-- One character of the `parsePrefixGrouping` loop, in source order:
record a `-` or `,` separator (before the start-marker test, as in the
Go code), skip until the start marker, accumulate digit runs, flush a
finished run, and keep extending the lower-cased operator text until it
reads `or`, `and` or `not`. -/
def prefixGroupStep (startsAfter : Option Char) (st : PrefixGroupState)
    (char : Char) : PrefixGroupState :=
  let st :=
    if char = '-' then { st with sep := gs "-" }
    else if char = ',' then { st with sep := gs "," }
    else st
  if ¬ st.inGroup && some char == startsAfter then { st with inGroup := true }
  else if ¬ st.inGroup then st
  else
    let st :=
      if goIsNumber char then { st with num := st.num ++ [char] }
      else if st.num.length > 0 then prefixGroupFlush st
      else st
    if ¬ (st.operator = gs "or") && ¬ (st.operator = gs "and") &&
        ¬ (st.operator = gs "not") then
      { st with operator := st.operator ++ [goToLowerChar char] }
    else st

/-- `parsePrefixGrouping` (part_002): run the character loop over the
line plus the sentinel newline (`none` models the Go `rune(0)` start
marker) and return the accumulated `QueryGroup`. -/
def parsePrefixGrouping (group : GoStr) (startsAfter : Option Char) : QueryGroup :=
  let fin := (group ++ ['\n']).foldl (prefixGroupStep startsAfter)
    ⟨[], [], [], [], startsAfter.isNone, emptyQueryGroup⟩
  fin.queryGroup

/- ------------------------------------------------------------------ -/
/- PubMed parser (src/parser/pubmed.go)                                -/
/- ------------------------------------------------------------------ -/

/-- `PubMedFieldMapping`, in source order (a Go map with pairwise
distinct keys, so association-list lookup agrees with it). -/
def pubMedFieldMappingEntries : List (GoStr × List GoStr) :=
  [ (gs "Mesh",                 [fieldsMeshHeadings])
  , (gs "mesh",                 [fieldsMeshHeadings])
  , (gs "MeSH",                 [fieldsMeshHeadings])
  , (gs "MESH",                 [fieldsMeshHeadings])
  , (gs "MeSH Terms",           [fieldsMeshHeadings])
  , (gs "Mesh Terms",           [fieldsMeshHeadings])
  , (gs "MAJR",                 [fieldsMajorFocusMeshHeading])
  , (gs "MeSH Major Topic",     [fieldsMajorFocusMeshHeading])
  , (gs "MeSH Subheading",      [fieldsFloatingMeshHeadings])
  , (gs "Subheading",           [fieldsFloatingMeshHeadings])
  , (gs "Title/Abstract",       [fieldsTitle, fieldsAbstract])
  , (gs "Title",                [fieldsTitle])
  , (gs "Abstract",             [fieldsAbstract])
  , (gs "Publication",          [fieldsPublicationType])
  , (gs "Publication Type",     [fieldsPublicationType])
  , (gs "Journal",              [fieldsJournal])
  , (gs "All Fields",           [fieldsTitle, fieldsAbstract, fieldsMeshHeadings])
  , (gs "Date - Entrez : 3000", [fieldsPublicationDate])
  , (gs "mh",                   [fieldsMeshHeadings])
  , (gs "sh",                   [fieldsFloatingMeshHeadings])
  , (gs "tw",                   [fieldsTitle, fieldsAbstract])
  , (gs "ti",                   [fieldsTitle])
  , (gs "pt",                   [fieldsPublicationType])
  , (gs "sb",                   [fieldsPublicationStatus])
  , (gs "tiab",                 [fieldsTitle, fieldsAbstract])
  , (gs "default",              [fieldsTitle, fieldsAbstract])
  ]

/-- Go map lookup with ok-flag (`field, ok := mapping[possibleField]`). -/
def assocLookup (mapping : List (GoStr × List GoStr)) (f : GoStr) :
    Option (List GoStr) :=
  (mapping.find? fun e => e.1 == f).map fun e => e.2

/-- `PubMedTransformer.TransformSingle`.  A bracketed field annotation
is split off and resolved; containing `mesh` (case-insensitively) sets
the exploded flag and a `:noexp` suffix clears it again; an annotation
missing from the mapping hits `log.Fatalf`, embedded as the error case.
The surviving keyword gets the `default` mapping when no fields were
found, records whether any of `*$?~` occurs, and normalizes `$`, `?`
and `~` to the `*` wildcard. -/
def PubMedTransformSingle (query : GoStr) (mapping : List (GoStr × List GoStr)) :
    Except GoStr Keyword :=
  let start :=
    if goContainsRune query '[' then
      let parts := goSplitChar '[' query
      let queryString := (parts.get? 0).getD []
      let possibleField := goRemoveAllChar ']' ((parts.get? 1).getD [])
      let exploded := goContainsSeq (goToLower possibleField) (gs "mesh")
      let (exploded, possibleField) :=
        if goContainsSeq (goToLower possibleField) (gs ":noexp") then
          (false, goRemoveAllSeq (goToLower possibleField) (gs ":noexp"))
        else (exploded, possibleField)
      match assocLookup mapping possibleField with
      | some f => Except.ok (queryString, f, exploded)
      | none =>
        Except.error (gs "the field `" ++ possibleField ++
          gs "` does not have a mapping defined")
    else Except.ok (query, [], false)
  match start with
  | Except.error e => Except.error e
  | Except.ok (queryString, queryFields, exploded) =>
    let queryFields :=
      if queryFields = [] then (assocLookup mapping (gs "default")).getD []
      else queryFields
    let truncated := goContainsAny queryString (gs "*$?~")
    let qs := goReplaceAllChar '~' '*' (goReplaceAllChar '?' '*'
      (goReplaceAllChar '$' '*' queryString))
    Except.ok
      { queryString := goTrimSpace qs
      , fields := queryFields
      , exploded := exploded
      , truncated := truncated }

/-- Modelled from the spec: `adjMatchRegexp` of the PubMed transformer
is defined outside src/; §4.2 lists the adjacency operators as `adj`
and `adj2`..`adj8`, so the model accepts `adj` optionally followed by a
digit run. -/
def adjMatch (s : GoStr) : Bool :=
  (gs "adj").isPrefixOf s && (s.drop 3).all goIsNumber

/-- `PubMedTransformer.IsOperator`. -/
def pubmedIsOperator (s : GoStr) : Bool :=
  s = gs "or" || s = gs "and" || s = gs "not" || adjMatch s

/-- State of the character loop in
`PubMedTransformer.ParseInfixKeywords`. -/
structure PubMedLexState where
  stack : List GoStr
  keyword : GoStr
  currentToken : GoStr
  previousToken : GoStr
  endTokens : GoStr
  depth : Int
  insideQuote : Bool
deriving DecidableEq

def initPubMedLexState : PubMedLexState := ⟨[], [], [], [], [], 0, false⟩

/-- One character of the PubMed `ParseInfixKeywords` loop: double
quotes toggle the quoting state (and are themselves dropped); inside
quotes every character is accumulated verbatim into the current token;
outside quotes the loop behaves like the Medline one except that the
`)` flush also drains `previousToken`. -/
def pubmedLexStep (st : PubMedLexState) (char : Char) : PubMedLexState :=
  if char = '"' && ¬ st.insideQuote then { st with insideQuote := true }
  else if char = '"' && st.insideQuote then { st with insideQuote := false }
  else if st.insideQuote then { st with currentToken := st.currentToken ++ [char] }
  else if goIsSpace char then
    let tok := goToLower st.currentToken
    if pubmedIsOperator tok then
      { st with stack := st.stack ++ [goTrimSpace st.previousToken, goTrimSpace tok]
              , previousToken := [], keyword := [], currentToken := [] }
    else
      { st with previousToken := st.previousToken ++ ' ' :: st.currentToken
              , currentToken := [] }
  else if char = '(' then
    { st with depth := st.depth + 1, stack := st.stack ++ [gs "("], currentToken := [] }
  else if char = ')' then
    let st1 : PubMedLexState := { st with depth := st.depth - 1 }
    let st2 :=
      if st1.keyword.length > 0 || st1.currentToken.length > 0 then
        { st1 with
            stack := st1.stack ++
              [goTrimSpace (st1.keyword ++ ' ' :: st1.previousToken ++ ' ' :: st1.currentToken)]
          , keyword := [], currentToken := [], previousToken := [] }
      else st1
    { st2 with stack := st2.stack ++ [gs ")"] }
  else
    let st1 : PubMedLexState := { st with currentToken := st.currentToken ++ [char] }
    if st1.depth = 0 then { st1 with endTokens := st1.endTokens ++ [char] } else st1

/-- The tokenization stage of `PubMedTransformer.ParseInfixKeywords`:
the character loop over the line with its sentinel newline, followed by
the flush of the trailing depth-0 buffer — exactly the token stack the
rest of the function hands to the shunting yard. -/
def PubMedTokenize (line : GoStr) : List GoStr :=
  let fin := (line ++ ['\n']).foldl pubmedLexStep initPubMedLexState
  if fin.endTokens.length > 0 then fin.stack ++ [fin.endTokens] else fin.stack

/- ------------------------------------------------------------------ -/
/- CQR structured-format parser (src/parser/cqr.go)                    -/
/- ------------------------------------------------------------------ -/

/-- A decoded structured-format (CQR) JSON object, with exactly the
keys `CQRTransformer` reads: `operator`, `children`, `query`, `fields`
and the `exploded`/`truncated` options.  `Option` models Go's
present-and-non-nil test on the generic `map[string]interface{}`. -/
inductive CqrRep where
  | mk (operator : Option GoStr) (children : Option (List CqrRep))
       (query : Option GoStr) (fields : Option (List GoStr))
       (exploded : Option Bool) (truncated : Option Bool)

def CqrRep.operator : CqrRep → Option GoStr
  | .mk op _ _ _ _ _ => op

def CqrRep.children : CqrRep → Option (List CqrRep)
  | .mk _ cs _ _ _ _ => cs

def CqrRep.query : CqrRep → Option GoStr
  | .mk _ _ q _ _ _ => q

def CqrRep.fields : CqrRep → Option (List GoStr)
  | .mk _ _ _ fs _ _ => fs

def CqrRep.explodedOpt : CqrRep → Option Bool
  | .mk _ _ _ _ e _ => e

def CqrRep.truncatedOpt : CqrRep → Option Bool
  | .mk _ _ _ _ _ t => t

/-- `transformSingle` (cqr.go): map each declared field through the
mapping (keeping the raw name when the mapping has no entry), fall back
to the `default` mapping when no fields were declared or none mapped,
and read the `exploded`/`truncated` options. -/
def cqrTransformSingle (rep : CqrRep) (mapping : List (GoStr × List GoStr)) :
    Keyword :=
  let queryFields :=
    match rep.fields with
    | some fs =>
      (fs.map fun f => (assocLookup mapping f).getD [f]).flatten
    | none => (assocLookup mapping (gs "default")).getD []
  let queryFields :=
    if queryFields = [] || rep.fields = none then
      (assocLookup mapping (gs "default")).getD []
    else queryFields
  { queryString := (rep.query).getD []
  , fields := queryFields
  , exploded := (rep.explodedOpt).getD false
  , truncated := (rep.truncatedOpt).getD false }

mutual
/-- `transformNested` (cqr.go): a rep with children becomes a node with
that operator whose child reps without an `operator` key become direct
keywords and the rest become children; a rep without children becomes
the degenerate single-keyword `or` node (`cqr.OR`, the constant of the
external cqr package, is the string `or`). -/
def cqrTransformNestedRep : CqrRep → List (GoStr × List GoStr) → BooleanQuery
  | .mk op (some cs) _ _ _ _, mapping =>
    .mk (op.getD []) (cqrChildren cs mapping) (cqrKeywords cs mapping)
  | .mk op none q fs e t, mapping =>
    .mk (gs "or") [] [cqrTransformSingle (.mk op none q fs e t) mapping]

def cqrChildren : List CqrRep → List (GoStr × List GoStr) → List BooleanQuery
  | [], _ => []
  | c :: cs, mapping =>
    match c.operator with
    | some _ => cqrTransformNestedRep c mapping :: cqrChildren cs mapping
    | none => cqrChildren cs mapping

def cqrKeywords : List CqrRep → List (GoStr × List GoStr) → List Keyword
  | [], _ => []
  | c :: cs, mapping =>
    match c.operator with
    | some _ => cqrKeywords cs mapping
    | none => cqrTransformSingle c mapping :: cqrKeywords cs mapping
end

/-- `CQRTransformer.TransformNested`.  Modelled from the spec: the JSON
decoding itself (`encoding/json.Unmarshal`) is external to the core
(§1 treats the JSON format as an interface), so the embedding takes
the decode outcome.  On a decode error the Go code logs the error and
returns the zero-value tree; the log stream is made observable as the
second component. -/
def CQRTransformNested (decoded : Except GoStr CqrRep)
    (mapping : List (GoStr × List GoStr)) : BooleanQuery × List GoStr :=
  match decoded with
  | .error err => (emptyBooleanQuery, [err])
  | .ok rep => (cqrTransformNestedRep rep mapping, [])

/- ------------------------------------------------------------------ -/
/- Medline document driver (modelled from the spec)                    -/
/- ------------------------------------------------------------------ -/

/-- Modelled from the spec: stripping the `<n>. ` statement-number
prefix the lexer removes from each numbered line before the parser sees
it (the lexer itself is not under src/; §4.6 fixes the emitted line
shape `<n>. <statement>`). -/
def stripStatementNumber (line : GoStr) : GoStr :=
  let rest := line.dropWhile goIsNumber
  if (gs ". ").isPrefixOf rest then rest.drop 2 else line

/-- Modelled from the spec: recognizing the postfix/reference grouping
line shape (`or/1-6`, `and/3,5,9`) — §4.5: an operator word, the start
marker `/`, then the number list.  A trailing `/` mesh-heading line has
no operator word before its `/` and is not a grouping. -/
def isPrefixGroupingLine (l : GoStr) : Bool :=
  let parts := goSplitChar '/' l
  parts.length = 2 &&
    (let op := goToLower ((parts.get? 0).getD [])
     op = gs "or" || op = gs "and" || op = gs "not")

/-- Modelled from the spec: recognizing the infix numeric grouping line
shape (`9 and 10`, `4 and (5 or 6)`) — §4.5: operands are bare
integers combined with `and`/`or`/`not` and parentheses. -/
def isInfixGroupingLine (l : GoStr) : Bool :=
  let tokens := (goSplitChar ' ' l).filter fun t => ¬ (t = [])
  ¬ tokens.isEmpty &&
    tokens.all (fun t =>
      (goAtoi t).isSome ||
      (let w := goToLower t
       w = gs "or" || w = gs "and" || w = gs "not") ||
      t = gs "(" || t = gs ")") &&
    tokens.any fun t => (goAtoi t).isSome

/-- A statement tree that is a bare keyword holder: no operator and no
children.  Used when substituting numbered statements into a grouping
(spec §4.5: the caller substitutes real keyword leaves). -/
def isLeafStatement (t : BooleanQuery) : Bool :=
  t.operator = [] && t.children.isEmpty

mutual
/-- Modelled from the spec: resolving a `QueryGroup` against the
previously parsed numbered statements (§4.5: both grouping forms
terminate at a line-number tree, which a caller resolves against
previously-parsed numbered statements to substitute real keyword
leaves).  A referenced statement that is a bare keyword holder
contributes its keywords directly; any other statement becomes a child
subtree; nested groups resolve recursively. -/
def resolveQueryGroup (stmts : List BooleanQuery) : QueryGroup → BooleanQuery
  | ⟨_, ty, nums, cs⟩ =>
    let refd := nums.filterMap fun n => stmts.get? (n - 1)
    let kws := (refd.map fun t => if isLeafStatement t then t.keywords else []).flatten
    let subs := refd.filter fun t => ¬ isLeafStatement t
    .mk ty (subs ++ resolveQueryGroupList stmts cs) kws

def resolveQueryGroupList (stmts : List BooleanQuery) : List QueryGroup → List BooleanQuery
  | [] => []
  | g :: rest => resolveQueryGroup stmts g :: resolveQueryGroupList stmts rest
end

/-- Modelled from the spec: dispatching one numbered Medline line (§2
data flow, §4.5): a grouping-shaped line goes through the numeric
grouping parser and is resolved against the earlier statements; a
parenthesized line goes through `TransformNested`; anything else is a
single keyword via `TransformSingle`.  (This per-line dispatch matches
the repository's own Medline test, whose expected field counts are only
met when non-parenthesized lines take the `TransformSingle` path.) -/
def medlineParseLine (stmts : List BooleanQuery) (line : GoStr) : BooleanQuery :=
  if isPrefixGroupingLine line then
    resolveQueryGroup stmts (parsePrefixGrouping line none)
  else if isInfixGroupingLine line then
    resolveQueryGroup stmts (parseInfixGrouping line none)
  else if goContainsRune line '(' then MedlineTransformNested line
  else .mk [] [] [MedlineTransformSingle line]

/-- Modelled from the spec: parsing a whole newline-separated numbered
Medline document (the lexer plus `QueryParser.Parse` driver, neither
under src/): each non-empty line is stripped of its statement number
and parsed with the statements before it in scope; the last statement
is the root of the resulting tree. -/
def medlineParseDocument (doc : GoStr) : BooleanQuery :=
  let lines := (goSplitChar '\n' doc).filter fun l => ¬ (l = [])
  let stmts := lines.foldl
    (fun stmts line => stmts ++ [medlineParseLine stmts (stripStatementNumber line)]) []
  stmts.getLastD emptyBooleanQuery

/- ------------------------------------------------------------------ -/
/- Round-trip property (C1)                                            -/
/- ------------------------------------------------------------------ -/

mutual
/-- The well-formedness invariant of spec §3: a node with a non-empty
operator has at least two combined children-plus-keywords entries, and
a node with an empty operator never has exactly one combined entry. -/
def wellFormed : BooleanQuery → Bool
  | .mk op cs ks =>
    (if ¬ (op = []) then cs.length + ks.length ≥ 2
     else ¬ (cs.length + ks.length = 1)) && wellFormedList cs

def wellFormedList : List BooleanQuery → Bool
  | [] => true
  | q :: qs => wellFormed q && wellFormedList qs
end

/-- The field set of a keyword viewed up to order and duplicates: the
sorted, deduplicated canonical field list. -/
def fieldSet (k : Keyword) : List GoStr := dedupAdjacent (sortStrings k.fields)

/-- One Medline round trip: compile with the Medline backend and
re-parse the numbered text with the Medline parser. -/
def MedlineRoundTrip (t : BooleanQuery) : BooleanQuery :=
  medlineParseDocument (MedlineCompile t)

/-- The round-trip shape property of spec §8 for one tree: the
re-parsed tree has the same root operator, the same total number of
keywords, and the same field set for each keyword (in depth-first
keyword order) as the original. -/
def roundTripPreserved (t : BooleanQuery) : Prop :=
  (MedlineRoundTrip t).operator = t.operator ∧
  (allKeywords (MedlineRoundTrip t)).length = (allKeywords t).length ∧
  (allKeywords (MedlineRoundTrip t)).map fieldSet = (allKeywords t).map fieldSet

instance (t : BooleanQuery) : Decidable (roundTripPreserved t) := by
  unfold roundTripPreserved; infer_instance

/- ------------------------------------------------------------------ -/
/- Claim-level definitions                                             -/
/- ------------------------------------------------------------------ -/

/-- A plain lowercase-letter character. -/
def simpleTermChar (c : Char) : Bool := 'a' ≤ c && c ≤ 'z'

/-- A plain search term: non-empty and made of lowercase letters only
(so it contains no structural characters, digits, dots, wildcards or
whitespace). -/
def simpleTerm (w : GoStr) : Bool := ¬ w.isEmpty && w.all simpleTermChar

/-- The field lists (already in canonical sorted order) whose exact
reverse-mapping entry and forward Medline mapping agree as sets:
`ab` ↔ {abstract}, `ti` ↔ {title}, `tw` ↔ {abstract, title}. -/
def roundTrippableFieldSets : List (List GoStr) :=
  [[gs "abstract"], [gs "title"], [gs "abstract", gs "title"]]

/-- The tree witnessing that the Medline round trip does not preserve
field sets: a well-formed `or` of two keywords, the first carrying the
field set {title, abstract, mesh_headings} (which no reverse-mapping
entry matches in sorted order, so it compiles to an empty field code
and re-parses to the default field set). -/
def rtCounterexampleTree : BooleanQuery :=
  .mk (gs "or") []
    [ ⟨gs "aa", [gs "title", gs "abstract", gs "mesh_headings"], false, false⟩
    , ⟨gs "bb", [gs "title"], false, false⟩ ]

/- ------------------------------------------------------------------ -/
/- Helper lemmas                                                       -/
/- ------------------------------------------------------------------ -/

set_option maxRecDepth 20000

theorem goSplitChar_append_sep {sep : Char} {xs : GoStr} (ys : GoStr)
    (h : sep ∉ xs) : goSplitChar sep (xs ++ sep :: ys) = xs :: goSplitChar sep ys := by
  induction xs with
  | nil => simp [goSplitChar]
  | cons c rest ih =>
    have hc : ¬ (c = sep) := fun hcs => h (hcs ▸ List.mem_cons_self c rest)
    have hr : sep ∉ rest := fun hm => h (List.mem_cons_of_mem c hm)
    simp only [List.cons_append, goSplitChar, if_neg hc, List.append_eq]
    rw [ih hr]

theorem goSplitChar_no_sep {sep : Char} {xs : GoStr} (h : sep ∉ xs) :
    goSplitChar sep xs = [xs] := by
  induction xs with
  | nil => rfl
  | cons c rest ih =>
    have hc : ¬ (c = sep) := fun hcs => h (hcs ▸ List.mem_cons_self c rest)
    have hr : sep ∉ rest := fun hm => h (List.mem_cons_of_mem c hm)
    simp only [goSplitChar, if_neg hc, ih hr]

theorem goRemoveAllChar_of_not_mem {c : Char} {s : GoStr} (h : c ∉ s) :
    goRemoveAllChar c s = s := by
  induction s with
  | nil => rfl
  | cons x rest ih =>
    have hx : ¬ (x = c) := fun hxc => h (hxc ▸ List.mem_cons_self x rest)
    have hr : c ∉ rest := fun hm => h (List.mem_cons_of_mem x hm)
    simp [goRemoveAllChar, hx] at *
    simpa [goRemoveAllChar] using ih hr

theorem goReplaceAllChar_of_not_mem {old new : Char} {s : GoStr} (h : old ∉ s) :
    goReplaceAllChar old new s = s := by
  induction s with
  | nil => rfl
  | cons x rest ih =>
    have hx : ¬ (x = old) := fun hxc => h (hxc ▸ List.mem_cons_self x rest)
    have hr : old ∉ rest := fun hm => h (List.mem_cons_of_mem x hm)
    simp [goReplaceAllChar, hx] at *
    simpa [goReplaceAllChar] using ih hr

theorem isConsecutiveAscFrom_iff (o : Nat) (l : List Nat) :
    isConsecutiveAscFrom o l = true ↔ List.Chain' (fun a b => b = a + 1) (o :: l) := by
  induction l generalizing o with
  | nil => simp [isConsecutiveAscFrom]
  | cons x rest ih =>
    simp only [isConsecutiveAscFrom, List.chain'_cons]
    by_cases hx : x = o + 1
    · subst hx
      simp [ih]
    · simp [hx]

theorem isConsecutiveAsc_iff (l : List Nat) :
    isConsecutiveAsc l = true ↔ List.Chain' (fun a b => b = a + 1) l := by
  cases l with
  | nil => simp [isConsecutiveAsc]
  | cons x rest => simpa [isConsecutiveAsc] using isConsecutiveAscFrom_iff x rest

theorem goAtoi_none_of_mem {s : GoStr} {c : Char} (hc : c ∈ s)
    (hn : goIsNumber c = false) : goAtoi s = none := by
  unfold goAtoi
  have : s.all goIsNumber = false := by
    rw [List.all_eq_false]
    exact ⟨c, hc, by simp [hn]⟩
  simp [this]

theorem simpleTerm_mem {w : GoStr} {c : Char} (hw : simpleTerm w = true)
    (hc : c ∈ w) : ('a' ≤ c && c ≤ 'z') = true := by
  unfold simpleTerm at hw
  simp only [Bool.and_eq_true, List.all_eq_true] at hw
  have := hw.2 c hc
  simpa [simpleTermChar] using this

theorem simpleTerm_not_mem {w : GoStr} {c : Char} (hw : simpleTerm w = true)
    (hc : ('a' ≤ c && c ≤ 'z') = false) : c ∉ w := fun hm => by
  rw [simpleTerm_mem hw hm] at hc
  cases hc

theorem stripStatementNumber_digit {d : Char} (t : GoStr)
    (hd : goIsNumber d = true) :
    stripStatementNumber (d :: '.' :: ' ' :: t) = t := by
  unfold stripStatementNumber
  rw [List.dropWhile_cons]
  simp only [goIsNumber] at hd
  have hdot : goIsNumber '.' = false := by decide
  simp [goIsNumber, hd, List.dropWhile_cons, hdot, List.isPrefixOf]

theorem allKeywordsList_append (a b : List BooleanQuery) :
    allKeywordsList (a ++ b) = allKeywordsList a ++ allKeywordsList b := by
  induction a with
  | nil => rfl
  | cons q qs ih => simp [allKeywordsList, ih]

theorem allKeywords_withOperator (g : BooleanQuery) (op : GoStr) :
    allKeywords (g.withOperator op) = allKeywords g := by
  cases g
  rfl

theorem allKeywords_addChild (g c : BooleanQuery) (kw : Keyword) :
    kw ∈ allKeywords (g.addChild c) ↔ kw ∈ allKeywords g ∨ kw ∈ allKeywords c := by
  cases g with
  | mk op cs ks =>
    simp [BooleanQuery.addChild, allKeywords, BooleanQuery.operator, BooleanQuery.children,
      BooleanQuery.keywords, allKeywordsList_append, allKeywordsList, List.mem_append]
    tauto

theorem allKeywords_addKeyword (g : BooleanQuery) (k kw : Keyword) :
    kw ∈ allKeywords (g.addKeyword k) ↔ kw ∈ allKeywords g ∨ kw = k := by
  cases g with
  | mk op cs ks =>
    simp [BooleanQuery.addKeyword, allKeywords, BooleanQuery.operator, BooleanQuery.children,
      BooleanQuery.keywords, List.mem_append]
    tauto

theorem pubmed_wildcard_map (s : GoStr) :
    goReplaceAllChar '~' '*' (goReplaceAllChar '?' '*' (goReplaceAllChar '$' '*' s)) =
      s.map fun ch => if ch = '$' || ch = '?' || ch = '~' then '*' else ch := by
  simp only [goReplaceAllChar, List.map_map]
  apply List.map_congr_left
  intro ch _
  by_cases h1 : ch = '$'
  · simp [h1, Function.comp]
  · by_cases h2 : ch = '?'
    · simp [h1, h2, Function.comp]
    · by_cases h3 : ch = '~'
      · simp [h1, h2, h3, Function.comp]
      · simp [h1, h2, h3, Function.comp]

theorem tpg_fields (fuel : Nat) :
    ∀ (pre : List GoStr) (g : BooleanQuery) (flds : List GoStr) (kw : Keyword),
      kw ∈ allKeywords (TransformPrefixGroupToQueryGroup fuel pre g flds).2 →
      kw ∈ allKeywords g ∨ kw.fields = flds := by
  induction fuel with
  | zero =>
    intro pre g flds kw h
    cases pre <;> simp [TransformPrefixGroupToQueryGroup] at h <;> exact Or.inl h
  | succ n ih =>
    intro pre g flds kw h
    cases pre with
    | nil =>
      simp [TransformPrefixGroupToQueryGroup] at h
      exact Or.inl h
    | cons token rest =>
      simp only [TransformPrefixGroupToQueryGroup] at h
      by_cases h1 : IsOperator token = true
      · rw [if_pos h1] at h
        rcases ih _ _ _ _ h with h2 | h2
        · rw [allKeywords_withOperator] at h2
          exact Or.inl h2
        · exact Or.inr h2
      · rw [if_neg h1] at h
        by_cases h2 : token = gs "("
        · rw [if_pos h2] at h
          rcases hres : TransformPrefixGroupToQueryGroup n rest emptyBooleanQuery flds
            with ⟨rest2, sub⟩
          rw [hres] at h
          rcases ih _ _ _ _ h with h3 | h3
          · rcases (allKeywords_addChild g sub kw).1 h3 with h4 | h4
            · exact Or.inl h4
            · have h5 := ih rest emptyBooleanQuery flds kw (by rw [hres]; exact h4)
              rcases h5 with h6 | h6
              · simp [allKeywords, emptyBooleanQuery, allKeywordsList] at h6
              · exact Or.inr h6
          · exact Or.inr h3
        · rw [if_neg h2] at h
          by_cases h3 : token = gs ")"
          · rw [if_pos h3] at h
            exact Or.inl h
          · rw [if_neg h3] at h
            by_cases h4 : token.length > 0
            · rw [if_pos h4] at h
              rcases ih _ _ _ _ h with h5 | h5
              · rcases (allKeywords_addKeyword g _ kw).1 h5 with h6 | h6
                · exact Or.inl h6
                · exact Or.inr (by rw [h6])
              · exact Or.inr h5
            · rw [if_neg h4] at h
              exact ih _ _ _ _ h

theorem not_mem_term_line {x : Char} {w c : GoStr} (hw : simpleTerm w = true)
    (hc : simpleTerm c = true) (hx : ('a' ≤ x && x ≤ 'z') = false)
    (hdot : ¬ x = '.') : x ∉ w ++ '.' :: (c ++ ['.']) := by
  intro hm
  simp only [List.mem_append, List.mem_cons, List.mem_singleton,
    List.not_mem_nil] at hm
  rcases hm with h | h | h | h
  · exact absurd (simpleTerm_mem hw h) (by simp [hx])
  · exact hdot h
  · exact absurd (simpleTerm_mem hc h) (by simp [hx])
  · rcases h with h | h
    · exact hdot h
    · exact h

theorem medlineTransformSingle_term {w c : GoStr}
    (hw : '.' ∉ w) (hdollar : '$' ∉ w) (hc : '.' ∉ c)
    (htf : ¬ TransformFields c = []) :
    MedlineTransformSingle (w ++ '.' :: (c ++ ['.'])) =
      ⟨w, TransformFields c, false, false⟩ := by
  have hlast2 : ('.' :: (c ++ ['.'])).getLast? = some '.' := by
    rw [show ('.' :: (c ++ ['.'])) = ('.' :: c) ++ '.' :: [] from by simp]
    rw [List.getLast?_append_cons]
    rfl
  have hlast : (w ++ '.' :: (c ++ ['.'])).getLast? = some '.' := by
    rw [List.getLast?_append_cons]
    exact hlast2
  have hsplit : goSplitChar '.' (w ++ '.' :: (c ++ ['.'])) = [w, c, []] := by
    rw [goSplitChar_append_sep _ hw]
    rw [show (c ++ ['.'] : GoStr) = c ++ '.' :: [] from rfl]
    rw [goSplitChar_append_sep _ hc]
    rfl
  simp [MedlineTransformSingle, hlast, hlast2, hsplit, htf,
    goReplaceAllChar_of_not_mem hdollar]

theorem medlineParseLine_term {w c : GoStr} (stmts : List BooleanQuery)
    (hw : simpleTerm w = true) (hc : simpleTerm c = true)
    (htf : ¬ TransformFields c = []) :
    medlineParseLine stmts (w ++ '.' :: (c ++ ['.'])) =
      .mk [] [] [⟨w, TransformFields c, false, false⟩] := by
  have hslash : ('/' : Char) ∉ w ++ '.' :: (c ++ ['.']) :=
    not_mem_term_line hw hc (by decide) (by decide)
  have hparen : (('(' : Char) ∈ w ++ '.' :: (c ++ ['.'])) = False := by
    simp only [eq_iff_iff, iff_false]
    exact not_mem_term_line hw hc (by decide) (by decide)
  have hspace : (' ' : Char) ∉ w ++ '.' :: (c ++ ['.']) :=
    not_mem_term_line hw hc (by decide) (by decide)
  have hdotmem : ('.' : Char) ∈ w ++ '.' :: (c ++ ['.']) := by
    simp
  have hne : ¬ (w ++ '.' :: (c ++ ['.']) = []) := by
    simp
  have hpg : isPrefixGroupingLine (w ++ '.' :: (c ++ ['.'])) = false := by
    unfold isPrefixGroupingLine
    rw [goSplitChar_no_sep hslash]
    rfl
  have hatoi : goAtoi (w ++ '.' :: (c ++ ['.'])) = none :=
    goAtoi_none_of_mem hdotmem (by decide)
  have hig : isInfixGroupingLine (w ++ '.' :: (c ++ ['.'])) = false := by
    unfold isInfixGroupingLine
    rw [goSplitChar_no_sep hspace]
    simp [hne, hatoi]
  have hcr : goContainsRune (w ++ '.' :: (c ++ ['.'])) '(' = false := by
    simp [goContainsRune, hparen]
  unfold medlineParseLine
  rw [hpg, hig, hcr]
  simp only [Bool.false_eq_true, if_false]
  rw [medlineTransformSingle_term (simpleTerm_not_mem hw (by decide))
    (simpleTerm_not_mem hw (by decide)) (simpleTerm_not_mem hc (by decide)) htf]

theorem medlineParseLine_group_or (ks1 ks2 : List Keyword) :
    medlineParseLine [.mk [] [] ks1, .mk [] [] ks2] (gs "1 or 2") =
      .mk (gs "or") [] (ks1 ++ ks2) := by
  have hpg : isPrefixGroupingLine (gs "1 or 2") = false := by decide
  have hig : isInfixGroupingLine (gs "1 or 2") = true := by decide
  have hgrp : parseInfixGrouping (gs "1 or 2") none = ⟨0, gs "or", [1, 2], []⟩ := by rfl
  unfold medlineParseLine
  rw [hpg, hig]
  simp only [Bool.false_eq_true, if_false, if_true, hgrp]
  simp [resolveQueryGroup, resolveQueryGroupList, isLeafStatement,
    BooleanQuery.operator, BooleanQuery.children, BooleanQuery.keywords]

theorem medlineParseLine_group_and (ks1 ks2 : List Keyword) :
    medlineParseLine [.mk [] [] ks1, .mk [] [] ks2] (gs "1 and 2") =
      .mk (gs "and") [] (ks1 ++ ks2) := by
  have hpg : isPrefixGroupingLine (gs "1 and 2") = false := by decide
  have hig : isInfixGroupingLine (gs "1 and 2") = true := by decide
  have hgrp : parseInfixGrouping (gs "1 and 2") none = ⟨0, gs "and", [1, 2], []⟩ := by rfl
  unfold medlineParseLine
  rw [hpg, hig]
  simp only [Bool.false_eq_true, if_false, if_true, hgrp]
  simp [resolveQueryGroup, resolveQueryGroupList, isLeafStatement,
    BooleanQuery.operator, BooleanQuery.children, BooleanQuery.keywords]

theorem medlineParseDocument_three (l1 l2 l3 : GoStr)
    (h1 : ('\n' : Char) ∉ l1) (h2 : ('\n' : Char) ∉ l2) (h3 : ('\n' : Char) ∉ l3)
    (n1 : ¬ (l1 = [])) (n2 : ¬ (l2 = [])) (n3 : ¬ (l3 = [])) :
    medlineParseDocument (l1 ++ '\n' :: (l2 ++ '\n' :: (l3 ++ ['\n']))) =
      medlineParseLine
        [ medlineParseLine [] (stripStatementNumber l1)
        , medlineParseLine [medlineParseLine [] (stripStatementNumber l1)]
            (stripStatementNumber l2) ]
        (stripStatementNumber l3) := by
  unfold medlineParseDocument
  rw [goSplitChar_append_sep _ h1, goSplitChar_append_sep _ h2,
    show (l3 ++ ['\n'] : GoStr) = l3 ++ '\n' :: [] from rfl,
    goSplitChar_append_sep _ h3]
  simp [List.filter, n1, n2, n3, List.foldl, goSplitChar]

theorem kwline_mapped (n : Nat) (dc : Char) (w : GoStr) (F : List GoStr) (code : GoStr)
    (hn : natRepr n = [dc])
    (hcond : (F.length = 1 && F.head? == some fieldsMeshHeadings) = false)
    (hlook : medlineReverseLookup (dedupAdjacent (sortStrings F)) = some code) :
    medlineKeywordLine n ⟨w, F, false, false⟩ =
      (dc :: '.' :: ' ' :: (w ++ '.' :: (code ++ ['.']))) ++ ['\n'] := by
  unfold medlineKeywordLine
  simp only [hcond, Bool.false_eq_true, if_false, hlook, Option.getD_some, hn]
  simp [List.append_assoc, gs]

theorem compile_two (op : GoStr) (w1 w2 c1 c2 : GoStr) (F1 F2 : List GoStr)
    (hk1 : medlineKeywordLine 1 ⟨w1, F1, false, false⟩ =
      ('1' :: '.' :: ' ' :: (w1 ++ '.' :: (c1 ++ ['.']))) ++ ['\n'])
    (hk2 : medlineKeywordLine 2 ⟨w2, F2, false, false⟩ =
      ('2' :: '.' :: ' ' :: (w2 ++ '.' :: (c2 ++ ['.']))) ++ ['\n'])
    (hops : medlineOpsLine 3 op [1, 2] = (gs "3. 1 " ++ op ++ gs " 2") ++ ['\n']) :
    MedlineCompile (.mk op [] [⟨w1, F1, false, false⟩, ⟨w2, F2, false, false⟩]) =
      ('1' :: '.' :: ' ' :: (w1 ++ '.' :: (c1 ++ ['.']))) ++ '\n' ::
        (('2' :: '.' :: ' ' :: (w2 ++ '.' :: (c2 ++ ['.']))) ++ '\n' ::
          ((gs "3. 1 " ++ op ++ gs " 2") ++ ['\n'])) := by
  unfold MedlineCompile
  simp [compileMedline, compileMedlineChildren, medlineKeywordsLoop, hk1, hk2, hops,
    List.append_assoc]

theorem roundtrip_core (op : GoStr) (w1 w2 c1 c2 : GoStr) (F1 F2 : List GoStr)
    (hop : op = gs "or" ∨ op = gs "and")
    (hw1 : simpleTerm w1 = true) (hw2 : simpleTerm w2 = true)
    (hc1 : simpleTerm c1 = true) (hc2 : simpleTerm c2 = true)
    (htf1 : ¬ TransformFields c1 = []) (htf2 : ¬ TransformFields c2 = [])
    (hcomp : MedlineCompile (.mk op [] [⟨w1, F1, false, false⟩, ⟨w2, F2, false, false⟩]) =
      ('1' :: '.' :: ' ' :: (w1 ++ '.' :: (c1 ++ ['.']))) ++ '\n' ::
        (('2' :: '.' :: ' ' :: (w2 ++ '.' :: (c2 ++ ['.']))) ++ '\n' ::
          ((gs "3. 1 " ++ op ++ gs " 2") ++ ['\n'])))
    (hfs1 : dedupAdjacent (sortStrings (TransformFields c1)) =
      dedupAdjacent (sortStrings F1))
    (hfs2 : dedupAdjacent (sortStrings (TransformFields c2)) =
      dedupAdjacent (sortStrings F2)) :
    roundTripPreserved (.mk op [] [⟨w1, F1, false, false⟩, ⟨w2, F2, false, false⟩]) := by
  have hnl1 : ('\n' : Char) ∉ ('1' :: '.' :: ' ' :: (w1 ++ '.' :: (c1 ++ ['.']))) := by
    intro hm
    simp only [List.mem_cons] at hm
    rcases hm with h | h | h | h
    · exact absurd h (by decide)
    · exact absurd h (by decide)
    · exact absurd h (by decide)
    · exact not_mem_term_line hw1 hc1 (by decide) (by decide) h
  have hnl2 : ('\n' : Char) ∉ ('2' :: '.' :: ' ' :: (w2 ++ '.' :: (c2 ++ ['.']))) := by
    intro hm
    simp only [List.mem_cons] at hm
    rcases hm with h | h | h | h
    · exact absurd h (by decide)
    · exact absurd h (by decide)
    · exact absurd h (by decide)
    · exact not_mem_term_line hw2 hc2 (by decide) (by decide) h
  have hnl3 : ('\n' : Char) ∉ (gs "3. 1 " ++ op ++ gs " 2") := by
    rcases hop with h | h <;> subst h <;> decide
  have hne3 : ¬ (gs "3. 1 " ++ op ++ gs " 2" = []) := by
    rcases hop with h | h <;> subst h <;> decide
  have hstrip3 : stripStatementNumber (gs "3. 1 " ++ op ++ gs " 2") =
      gs "1 " ++ op ++ gs " 2" := by
    rcases hop with h | h <;> subst h <;> rfl
  have hrt : MedlineRoundTrip (.mk op [] [⟨w1, F1, false, false⟩, ⟨w2, F2, false, false⟩]) =
      .mk op [] ([⟨w1, TransformFields c1, false, false⟩] ++
        [⟨w2, TransformFields c2, false, false⟩]) := by
    unfold MedlineRoundTrip
    rw [hcomp]
    rw [medlineParseDocument_three _ _ _ hnl1 hnl2 hnl3 (by simp) (by simp) hne3]
    rw [stripStatementNumber_digit _ (by decide), stripStatementNumber_digit _ (by decide),
      hstrip3]
    rw [medlineParseLine_term _ hw1 hc1 htf1, medlineParseLine_term _ hw2 hc2 htf2]
    rcases hop with h | h <;> subst h
    · rw [show (gs "1 " ++ gs "or" ++ gs " 2" : GoStr) = gs "1 or 2" from rfl]
      rw [medlineParseLine_group_or]
    · rw [show (gs "1 " ++ gs "and" ++ gs " 2" : GoStr) = gs "1 and 2" from rfl]
      rw [medlineParseLine_group_and]
  unfold roundTripPreserved
  rw [hrt]
  refine ⟨rfl, ?_, ?_⟩
  · simp [allKeywords, allKeywordsList]
  · simp [allKeywords, allKeywordsList, fieldSet, hfs1, hfs2]

theorem goodCode_of_mem {F : List GoStr} (hF : F ∈ roundTrippableFieldSets) :
    ∃ c : GoStr, simpleTerm c = true ∧ ¬ TransformFields c = [] ∧
      (∀ (n : Nat) (dc : Char) (w : GoStr), natRepr n = [dc] →
        medlineKeywordLine n ⟨w, F, false, false⟩ =
          (dc :: '.' :: ' ' :: (w ++ '.' :: (c ++ ['.']))) ++ ['\n']) ∧
      dedupAdjacent (sortStrings (TransformFields c)) = dedupAdjacent (sortStrings F) := by
  simp only [roundTrippableFieldSets, List.mem_cons, List.mem_singleton,
    List.not_mem_nil, or_false] at hF
  rcases hF with rfl | rfl | rfl
  · refine ⟨gs "ab", by decide, by decide, ?_, by decide⟩
    intro n dc w hn
    exact kwline_mapped n dc w _ _ hn (by decide) rfl
  · refine ⟨gs "ti", by decide, by decide, ?_, by decide⟩
    intro n dc w hn
    exact kwline_mapped n dc w _ _ hn (by decide) rfl
  · refine ⟨gs "tw", by decide, by decide, ?_, by decide⟩
    intro n dc w hn
    exact kwline_mapped n dc w _ _ hn (by decide) rfl

/- ------------------------------------------------------------------ -/
/- Claim theorems                                                      -/
/- ------------------------------------------------------------------ -/

/-- C1 (counterexample): the round-trip claim fails as stated.  The
well-formed tree `or(aa.{title,abstract,mesh_headings}, bb.{title})`
compiles to `1. aa..` / `2. bb.ti.` / `3. 1 or 2` — the first keyword's
field set has no exact reverse-mapping entry (the stored `ti,ab,sh`
entry is not in sorted order), so its field code is empty — and
re-parsing gives the first keyword the default field set `{abstract}`,
not `{title, abstract, mesh_headings}`. -/
theorem medline_roundtrip_counterexample :
    wellFormed rtCounterexampleTree = true ∧ ¬ roundTripPreserved rtCounterexampleTree := by
  constructor
  · rfl
  · decide

/-- C1 (amended): compiling with the Medline backend and re-parsing the
numbered text preserves the root operator, the total keyword count and
each keyword's field set for well-formed two-keyword `or`/`and` trees
whose keywords are plain lowercase terms and whose field lists are
exactly reverse-mappable (`{abstract}`, `{title}`,
`{abstract, title}`); for field sets without an exact reverse-mapping
entry the round trip loses the field set (see the counterexample).
The document-level re-parse driver is modelled from the spec, since the
lexer and `QueryParser.Parse` are not among the sources. -/
theorem medline_roundtrip_amended (op w1 w2 : GoStr) (F1 F2 : List GoStr)
    (hop : op ∈ [gs "or", gs "and"])
    (hF1 : F1 ∈ roundTrippableFieldSets) (hF2 : F2 ∈ roundTrippableFieldSets)
    (hw1 : simpleTerm w1 = true) (hw2 : simpleTerm w2 = true) :
    wellFormed (.mk op [] [⟨w1, F1, false, false⟩, ⟨w2, F2, false, false⟩]) = true ∧
    roundTripPreserved (.mk op [] [⟨w1, F1, false, false⟩, ⟨w2, F2, false, false⟩]) := by
  obtain ⟨c1, hsc1, htf1, hkl1, hfs1⟩ := goodCode_of_mem hF1
  obtain ⟨c2, hsc2, htf2, hkl2, hfs2⟩ := goodCode_of_mem hF2
  simp only [List.mem_cons, List.mem_singleton, List.not_mem_nil, or_false] at hop
  have hwf : wellFormed (.mk op [] [⟨w1, F1, false, false⟩, ⟨w2, F2, false, false⟩]) = true := by
    rcases hop with rfl | rfl <;> rfl
  refine ⟨hwf, ?_⟩
  have hops : medlineOpsLine 3 op [1, 2] = (gs "3. 1 " ++ op ++ gs " 2") ++ ['\n'] := by
    rcases hop with rfl | rfl <;> rfl
  exact roundtrip_core op w1 w2 c1 c2 F1 F2 hop hw1 hw2 hsc1 hsc2 htf1 htf2
    (compile_two op w1 w2 c1 c2 F1 F2 (hkl1 1 '1' w1 rfl) (hkl2 2 '2' w2 rfl) hops)
    hfs1 hfs2

/-- Witness for the amended C1 theorem: the concrete tree
`or(aa.{abstract}, bb.{title})` is well-formed and survives the round
trip. -/
theorem medline_roundtrip_amended_witness :
    wellFormed (.mk (gs "or") []
      [⟨gs "aa", [gs "abstract"], false, false⟩, ⟨gs "bb", [gs "title"], false, false⟩]) = true ∧
    roundTripPreserved (.mk (gs "or") []
      [⟨gs "aa", [gs "abstract"], false, false⟩, ⟨gs "bb", [gs "title"], false, false⟩]) :=
  medline_roundtrip_amended (gs "or") (gs "aa") (gs "bb") [gs "abstract"] [gs "title"]
    (by decide) (by decide) (by decide) (by decide) (by decide)

/-- C2: in the Medline backend's operand-combination statement (the
`if len(op) > 0` block of `compileMedline`, embedded as
`medlineOpsLine`), a strictly ascending consecutive operand-number run
of length greater than 2 is always rendered in the compact
`<n>. <operator>/<first>-<last>` form, and a run of length 1 or 2 —
even a consecutive one — is always rendered in the expanded form
joining the numbers with the operator, never the range shorthand. -/
theorem medline_shorthand_threshold (level : Nat) (operator : GoStr) (op : List Nat) :
    (List.Chain' (fun a b => b = a + 1) op ∧ 2 < op.length →
      medlineOpsLine level operator op =
        natRepr level ++ gs ". " ++ operator ++ gs "/" ++ natRepr (op.headD 0) ++
          gs "-" ++ natRepr (op.getLastD 0) ++ ['\n']) ∧
    (0 < op.length ∧ op.length ≤ 2 →
      medlineOpsLine level operator op =
        natRepr level ++ gs ". " ++
          goJoin (gs " " ++ operator ++ gs " ") (op.map natRepr) ++ ['\n']) := by
  constructor
  · intro ⟨hchain, hlen⟩
    have hasc : isConsecutiveAsc op = true := (isConsecutiveAsc_iff op).2 hchain
    have hpos : op.length > 0 := by omega
    simp [medlineOpsLine, hpos, hasc, hlen]
  · intro ⟨hpos, hlen⟩
    simp [medlineOpsLine, hpos]
    intro _ h2
    omega

/-- Witness for C2: the consecutive run `[1,2,3]` renders as the range
form `4. or/1-3` and the consecutive pair `[5,6]` renders expanded as
`7. 5 and 6`, never as shorthand. -/
theorem medline_shorthand_threshold_witness :
    (medlineOpsLine 4 (gs "or") [1, 2, 3] =
      natRepr 4 ++ gs ". " ++ gs "or" ++ gs "/" ++ natRepr (([1,2,3] : List Nat).headD 0) ++
        gs "-" ++ natRepr (([1,2,3] : List Nat).getLastD 0) ++ ['\n']) ∧
    (medlineOpsLine 7 (gs "and") [5, 6] =
      natRepr 7 ++ gs ". " ++
        goJoin (gs " " ++ gs "and" ++ gs " ") (([5,6] : List Nat).map natRepr) ++ ['\n']) :=
  ⟨(medline_shorthand_threshold 4 (gs "or") [1,2,3]).1
    ⟨by simp [List.chain'_cons], by decide⟩,
   (medline_shorthand_threshold 7 (gs "and") [5,6]).2 (by decide)⟩

/-- C3 (counterexample): parsing
`(sleep$ adj3 (apnea$ or apnoea$)).mp.` gives the direct keyword
`sleep*` the field set `{mesh_headings}` — the code's `mp` mapping —
not the claimed `{title, abstract, mesh_headings}` (which is the code's
`af` mapping); the two differ as sets. -/
theorem medline_mp_scenario_counterexample :
    ((MedlineTransformNested (gs "(sleep$ adj3 (apnea$ or apnoea$)).mp.")).keywords =
      [⟨gs "sleep*", [gs "mesh_headings"], false, false⟩]) ∧
    ¬ (fieldSet ⟨gs "sleep*", [gs "mesh_headings"], false, false⟩ =
       fieldSet ⟨gs "sleep*", [gs "title", gs "abstract", gs "mesh_headings"], false, false⟩) := by
  constructor
  · rfl
  · decide

/-- C3 (amended): parsing `(sleep$ adj3 (apnea$ or apnoea$)).mp.`
produces exactly the tree with root operator `adj3`, one direct keyword
`sleep*` with field set `{mesh_headings}` (the code's `mp` mapping),
and one child node with operator `or` holding exactly the keywords
`apnea*` and `apnoea*`. -/
theorem medline_mp_scenario_amended :
    MedlineTransformNested (gs "(sleep$ adj3 (apnea$ or apnoea$)).mp.") =
      .mk (gs "adj3")
        [.mk (gs "or") []
          [⟨gs "apnea*", [gs "mesh_headings"], false, false⟩,
           ⟨gs "apnoea*", [gs "mesh_headings"], false, false⟩]]
        [⟨gs "sleep*", [gs "mesh_headings"], false, false⟩] := by
  rfl

/-- C4 (counterexample): the Medline keyword construction does not set
`truncated` on a stemming marker: `hypopnoea$` contains the `$` marker,
yet the resulting keyword is `hypopnoea*` with `truncated = false`
(the source writes the literal `Truncated: false`). -/
theorem wildcard_normalization_counterexample :
    '$' ∈ gs "hypopnoea$" ∧
    MedlineTransformSingle (gs "hypopnoea$") =
      ⟨gs "hypopnoea*", [gs "abstract"], false, false⟩ := ⟨by decide, by rfl⟩

/-- C4 (amended): in the PubMed dialect, keyword construction replaces
each of `$`, `?`, `~` by the canonical wildcard `*` and sets
`truncated` exactly when any of `*`, `$`, `?`, `~` occurred in the raw
token; in the Medline dialect only `$` is replaced (leaving `?` and `~`
untouched) and `truncated` is always `false`. -/
theorem wildcard_normalization_amended (w : GoStr) :
    ('[' ∉ w →
      PubMedTransformSingle w pubMedFieldMappingEntries =
        Except.ok
          ⟨goTrimSpace (w.map fun ch =>
              if ch = '$' || ch = '?' || ch = '~' then '*' else ch)
          , [fieldsTitle, fieldsAbstract], false, goContainsAny w (gs "*$?~")⟩ ∧
      (goContainsAny w (gs "*$?~") = true ↔ ∃ ch ∈ w, ch ∈ gs "*$?~")) ∧
    ((MedlineTransformSingle w).truncated = false) ∧
    (¬ w.getLast? = some '/' → ¬ (goSplitChar '.' w).length = 3 →
      (MedlineTransformSingle w).queryString = goReplaceAllChar '$' '*' w) := by
  refine ⟨?_, ?_, ?_⟩
  · intro hw
    have hcr : goContainsRune w '[' = false := by
      simp [goContainsRune, hw]
    constructor
    · simp only [PubMedTransformSingle, hcr, Bool.false_eq_true, if_false]
      rw [pubmed_wildcard_map]
      rfl
    · simp [goContainsAny, List.any_eq_true]
  · rfl
  · intro h1 h2
    have hg : (w.getLast? == some '/') = false := by
      simp [h1]
    simp [MedlineTransformSingle, hg, h2]

/-- Witness for the amended C4 theorem: the PubMed transformer maps
`hypopnoea$` to `hypopnoea*` with truncated set, and the Medline
transformer leaves the `?` of `osa?` untouched. -/
theorem wildcard_normalization_amended_witness :
    (PubMedTransformSingle (gs "hypopnoea$") pubMedFieldMappingEntries =
      Except.ok
        ⟨goTrimSpace ((gs "hypopnoea$").map fun ch =>
            if ch = '$' || ch = '?' || ch = '~' then '*' else ch)
        , [fieldsTitle, fieldsAbstract], false, goContainsAny (gs "hypopnoea$") (gs "*$?~")⟩) ∧
    (MedlineTransformSingle (gs "osa?")).queryString =
      goReplaceAllChar '$' '*' (gs "osa?") :=
  ⟨((wildcard_normalization_amended (gs "hypopnoea$")).1 (by decide)).1,
   (wildcard_normalization_amended (gs "osa?")).2.2 (by decide) (by decide)⟩

/-- C5: when a keyword's field annotation has no entry in the dialect's
field mapping table, the PubMed transformer stops fatally (the
`log.Fatalf` call, embedded as the error case) while the Medline
transformer recovers non-fatally: it returns a keyword carrying the
default field set (the `ab` mapping, `{abstract}`) and parsing
continues. -/
theorem unmapped_field_asymmetry (w f c : GoStr) :
    ('[' ∉ w → '[' ∉ f → ']' ∉ f →
      ¬ goContainsSeq (goToLower f) (gs ":noexp") = true →
      assocLookup pubMedFieldMappingEntries f = none →
      ∃ e, PubMedTransformSingle (w ++ '[' :: f ++ [']']) pubMedFieldMappingEntries =
        Except.error e) ∧
    ('.' ∉ w → '.' ∉ c → TransformFields c = [] →
      MedlineTransformSingle (w ++ '.' :: c ++ ['.']) =
        ⟨goReplaceAllChar '$' '*' w, [gs "abstract"], false, false⟩) := by
  constructor
  · intro hw hf1 hf2 hnx hmap
    have hnf : '[' ∉ f ++ [']'] := by
      simp [hf1]
    have hsplit : goSplitChar '[' (w ++ '[' :: (f ++ [']'])) = [w, f ++ [']']] := by
      rw [goSplitChar_append_sep _ hw, goSplitChar_no_sep hnf]
    have hcr : goContainsRune (w ++ '[' :: (f ++ [']'])) '[' = true := by
      simp [goContainsRune]
    have hfield : goRemoveAllChar ']' (f ++ [']']) = f := by
      unfold goRemoveAllChar
      rw [List.filter_append]
      rw [show (([']'] : GoStr).filter fun ch => ¬ (ch = ']')) = [] from by decide]
      rw [show ((f : GoStr).filter fun ch => ¬ (ch = ']')) =
        goRemoveAllChar ']' f from rfl]
      rw [goRemoveAllChar_of_not_mem hf2]
      simp
    refine ⟨gs "the field `" ++ f ++ gs "` does not have a mapping defined", ?_⟩
    simp [PubMedTransformSingle, hcr, hsplit, hfield, hnx, hmap]
  · intro hw hc htf
    have hab : MedlineFieldMapping (gs "ab") = [gs "abstract"] := by rfl
    have hlast2 : ('.' :: (c ++ ['.'])).getLast? = some '.' := by
      rw [show ('.' :: (c ++ ['.'])) = ('.' :: c) ++ '.' :: [] from by simp]
      rw [List.getLast?_append_cons]
      rfl
    have hlast : (w ++ '.' :: (c ++ ['.'])).getLast? = some '.' := by
      rw [List.getLast?_append_cons]
      exact hlast2
    have hsplit : goSplitChar '.' (w ++ '.' :: (c ++ ['.'])) = [w, c, []] := by
      rw [goSplitChar_append_sep _ hw]
      rw [show (c ++ ['.'] : GoStr) = c ++ '.' :: [] from rfl]
      rw [goSplitChar_append_sep _ hc]
      rfl
    simp [MedlineTransformSingle, hlast, hlast2, hsplit, htf, hab]

/-- Witness for C5: the unmapped PubMed annotation `heart[xyz]` yields
the fatal error case, while the unmapped Medline annotation
`heart.zz.` yields a keyword with the default `{abstract}` field set. -/
theorem unmapped_field_asymmetry_witness :
    (∃ e, PubMedTransformSingle (gs "heart[xyz]") pubMedFieldMappingEntries =
      Except.error e) ∧
    MedlineTransformSingle (gs "heart.zz.") =
      ⟨goReplaceAllChar '$' '*' (gs "heart"), [gs "abstract"], false, false⟩ :=
  ⟨by
    have := (unmapped_field_asymmetry (gs "heart") (gs "xyz") (gs "zz")).1
      (by decide) (by decide) (by decide) (by decide) (by rfl)
    simpa using this,
   (unmapped_field_asymmetry (gs "heart") (gs "xyz") (gs "zz")).2
    (by decide) (by decide) (by rfl)⟩

/-- C6: parsing the numeric grouping line `or/1-6` with the
postfix/reference grammar (`parsePrefixGrouping`, scanned from the
start of the stripped line, the Go `rune(0)` start marker) produces a
`QueryGroup` of type `or` with keyword numbers `[1,2,3,4,5,6]`; and in
general, whenever a digit run is flushed while the recorded separator
is `-` and one earlier number is pending, the flush sets the group type
to the accumulated operator text and appends the whole inclusive range
from the earlier number to the new one. -/
theorem numeric_grouping_range (st : PrefixGroupState) (a b : GoStr) :
    ((parsePrefixGrouping (gs "or/1-6") none).type = gs "or" ∧
     (parsePrefixGrouping (gs "or/1-6") none).keywordNumbers = [1, 2, 3, 4, 5, 6]) ∧
    (st.nums = [a] → st.num = b → st.sep = gs "-" →
      (prefixGroupFlush st).queryGroup.keywordNumbers =
        st.queryGroup.keywordNumbers ++ rangeIncl ((goAtoi a).getD 0) ((goAtoi b).getD 0) ∧
      (prefixGroupFlush st).queryGroup.type = st.operator) := by
  refine ⟨⟨by rfl, by rfl⟩, ?_⟩
  intro h1 h2 h3
  simp [prefixGroupFlush, h1, h2, h3]

/-- Witness for C6: flushing the pending `6` with `1` recorded and a
`-` separator in a state with operator text `or` appends the inclusive
range 1..6. -/
theorem numeric_grouping_range_witness :
    (prefixGroupFlush ⟨[gs "1"], gs "6", gs "-", gs "or", true, emptyQueryGroup⟩).queryGroup.keywordNumbers =
      emptyQueryGroup.keywordNumbers ++ rangeIncl ((goAtoi (gs "1")).getD 0) ((goAtoi (gs "6")).getD 0) ∧
    (prefixGroupFlush ⟨[gs "1"], gs "6", gs "-", gs "or", true, emptyQueryGroup⟩).queryGroup.type =
      gs "or" :=
  (numeric_grouping_range ⟨[gs "1"], gs "6", gs "-", gs "or", true, emptyQueryGroup⟩
    (gs "1") (gs "6")).2 rfl rfl rfl

/-- C7: the Medline backend's reverse field lookup renders a field set
(after deduplication and sorting) as a dialect field code only when
some mapping entry's stored canonical field list is exactly equal to it
— equal cardinality and equal elements in the stored order — and it
returns no code at all when no entry matches exactly, so no partial or
superset match ever produces a field code. -/
theorem reverse_lookup_exact (flds : List GoStr) (code : GoStr) :
    (medlineReverseLookup (dedupAdjacent (sortStrings flds)) = some code →
      (code, dedupAdjacent (sortStrings flds)) ∈ medlineReverseMappingEntries) ∧
    ((∀ e ∈ medlineReverseMappingEntries, ¬ e.2 = dedupAdjacent (sortStrings flds)) →
      medlineReverseLookup (dedupAdjacent (sortStrings flds)) = none) := by
  constructor
  · intro h
    unfold medlineReverseLookup at h
    match hf : List.find? (fun e => e.2 == dedupAdjacent (sortStrings flds))
        medlineReverseMappingEntries with
    | none => rw [hf] at h; simp at h
    | some e =>
      rw [hf] at h
      simp at h
      have hmem := List.mem_of_find?_eq_some hf
      have hpe := List.find?_some hf
      have hval : e.2 = dedupAdjacent (sortStrings flds) := by
        simpa using hpe
      have : (code, dedupAdjacent (sortStrings flds)) = e := by
        cases e
        simp_all
      rw [this]
      exact hmem
  · intro h
    unfold medlineReverseLookup
    rw [List.find?_eq_none.2]
    · rfl
    · intro e he
      simpa using h e he

/-- Witness for C7: the field list `[title, abstract]` sorts to
`[abstract, title]`, which is exactly the stored list of the `tw`
entry. -/
theorem reverse_lookup_exact_witness :
    ((gs "tw", dedupAdjacent (sortStrings [gs "title", gs "abstract"])) ∈
      medlineReverseMappingEntries) :=
  (reverse_lookup_exact [gs "title", gs "abstract"] (gs "tw")).1 (by decide)

/-- C8: for every failing decode outcome (any input string that is not
a well-formed structured-format JSON document), the CQR parser's
`TransformNested` produces exactly the empty zero-value tree — never a
partially built one — together with the decode error, which the Go code
sends to the log (modelled as the returned log channel). -/
theorem cqr_decode_failure_empty_tree (err : GoStr) (mapping : List (GoStr × List GoStr)) :
    CQRTransformNested (Except.error err) mapping = (emptyBooleanQuery, [err]) := rfl

/-- C9: tokenizing the PubMed input `"sleep apnea" and osa` yields
exactly three tokens of which exactly one is an operator token (`and`)
and exactly two are keyword-text tokens, with the quoted phrase kept as
the single token `sleep apnea` (quotes stripped, its space not acting
as a delimiter); and in general, while the quoting flag is set, every
character up to the closing quote is accumulated verbatim into the
current token and the rest of the lexer state is untouched. -/
theorem pubmed_quoting_invariance (st : PubMedLexState) (s : GoStr) :
    (PubMedTokenize (gs "\"sleep apnea\" and osa") =
        [gs "sleep apnea", gs "and", gs "andosa"] ∧
     ((PubMedTokenize (gs "\"sleep apnea\" and osa")).filter
        fun t => pubmedIsOperator t) = [gs "and"] ∧
     ((PubMedTokenize (gs "\"sleep apnea\" and osa")).filter
        fun t => ¬ pubmedIsOperator t).length = 2) ∧
    (st.insideQuote = true → '"' ∉ s →
      s.foldl pubmedLexStep st = { st with currentToken := st.currentToken ++ s }) := by
  constructor
  · exact ⟨by rfl, by rfl, by rfl⟩
  · intro hq hmem
    induction s generalizing st with
    | nil => simp
    | cons c rest ih =>
      have hc : ¬ (c = '"') := fun hcs => hmem (hcs ▸ List.mem_cons_self c rest)
      have hr : '"' ∉ rest := fun hm => hmem (List.mem_cons_of_mem c hm)
      have hstep : pubmedLexStep st c = { st with currentToken := st.currentToken ++ [c] } := by
        simp [pubmedLexStep, hc, hq]
      simp only [List.foldl_cons, hstep]
      rw [ih { st with currentToken := st.currentToken ++ [c] } hq hr]
      simp

/-- Witness for C9's quoted-run lemma: from a quoting state with
pending token `x`, consuming `ab` appends it verbatim. -/
theorem pubmed_quoting_invariance_witness :
    (gs "ab").foldl pubmedLexStep ⟨[], [], gs "x", [], [], 0, true⟩ =
      { (⟨[], [], gs "x", [], [], 0, true⟩ : PubMedLexState) with
          currentToken := gs "x" ++ gs "ab" } :=
  (pubmed_quoting_invariance ⟨[], [], gs "x", [], [], 0, true⟩ (gs "ab")).2 rfl (by decide)

/-- C10: every keyword of a tree produced by the Medline
`TransformNested` carries exactly the field set derived from the line's
trailing field annotation — the parser overwrites each keyword's own
fields with the line-level set, so all keywords of one parsed line
share an identical field set. -/
theorem medline_line_fields_uniform (query : GoStr) (kw : Keyword)
    (h : kw ∈ allKeywords (MedlineTransformNested query)) :
    kw.fields = medlineNestedLineFields query := by
  unfold MedlineTransformNested MedlineParseInfixKeywords at h
  rcases tpg_fields _ _ _ _ _ h with h1 | h1
  · simp [allKeywords, emptyBooleanQuery, allKeywordsList] at h1
  · exact h1

/-- Witness for C10: the `sleep*` keyword of the parsed scenario line
carries the line's `mp` field set. -/
theorem medline_line_fields_uniform_witness :
    Keyword.fields ⟨gs "sleep*", [gs "mesh_headings"], false, false⟩ =
      medlineNestedLineFields (gs "(sleep$ adj3 (apnea$ or apnoea$)).mp.") :=
  medline_line_fields_uniform (gs "(sleep$ adj3 (apnea$ or apnoea$)).mp.")
    ⟨gs "sleep*", [gs "mesh_headings"], false, false⟩ (by decide)
